import Mathlib

/-!
Verification of the CPI wide-to-long reshape script (`scripts/process.py`).

The script reshapes a World Bank CPI table from wide format (one column per
year) to long format (one row per country-year), translating 3-letter country
codes to 2-letter codes with an "XK" sentinel fallback, and serializes the
result as CSV.  We embed the reshaper generators (`process_long`,
`process_wide`), the sink writer (`write_csv`), and the `__main__` wiring as
pure Lean functions and prove the specified properties about them.

Python generators yield items lazily and may raise partway through; a consumer
receives the items emitted before the exception, then the exception.  We model
a generator run as an `Emitted` value: the list of items produced, plus a flag
recording whether a fatal error (an uncaught `IndexError` from `headers[i+2]`)
terminated the run.
-/

namespace CPI

/-- Items produced by a generator run, plus whether the run ended by raising
an uncaught exception instead of completing normally. -/
structure Emitted where
  items : List (List String)
  err : Bool
deriving Repr, DecidableEq

/-- The pycountry 3-letter → 2-letter reference table, modelled as an
association list (the script treats it as a read-only lookup). -/
abbrev CodeTable := List (String × String)

/-- `pycountry.countries.get(alpha3=code).alpha2`: look up a 3-letter code, a
miss raises `KeyError`, modelled as `none`. -/
def lookupAlpha2 (table : CodeTable) (code : String) : Option String :=
  (table.find? (fun p => p.1 = code)).map Prod.snd

/-- The `try: ... except KeyError: c = "XK"` block of `process_long`: the
2-letter code on a hit, the sentinel `"XK"` on a miss. -/
def countryCode2 (table : CodeTable) (code3 : String) : String :=
  (lookupAlpha2 table code3).getD "XK"

/-- The inner loop of `process_long`: `for index, cpi in enumerate(row[2:])`,
starting from local index `idx` over the remaining cells.  An empty cell is
skipped (`if cpi:`); otherwise `headers[index+2]` is read — out of range is an
uncaught `IndexError` that ends the run — and
`[c] + [headers[index+2], cpi]` is yielded, where `c` comes from the
country-code lookup on `row[1]` with the `"XK"` fallback. -/
def processLongCells (table : CodeTable) (headers row : List String) :
    Nat → List String → Emitted
  | _, [] => ⟨[], false⟩
  | idx, cpi :: rest =>
    if cpi = "" then processLongCells table headers row (idx + 1) rest
    else
      match headers.get? (idx + 2) with
      | none => ⟨[], true⟩
      | some year =>
        let tail := processLongCells table headers row (idx + 1) rest
        ⟨[countryCode2 table (row.getD 1 ""), year, cpi] :: tail.items, tail.err⟩

/-- The outer loop of `process_long`: rows are processed in order; a row whose
processing raised ends the whole run (later rows are not reached). -/
def processLongRows (table : CodeTable) (headers : List String) :
    List (List String) → Emitted
  | [] => ⟨[], false⟩
  | row :: rest =>
    let r := processLongCells table headers row 0 (row.drop 2)
    if r.err then r
    else
      let t := processLongRows table headers rest
      ⟨r.items ++ t.items, t.err⟩

/-- `process_long(headers, rows)`: yields the hardcoded header
`["iso2c", "year", "cpi"]` first, then one row per non-empty CPI cell. -/
def process_long (table : CodeTable) (headers : List String)
    (rows : List (List String)) : Emitted :=
  let t := processLongRows table headers rows
  ⟨["iso2c", "year", "cpi"] :: t.items, t.err⟩

/-- The inner loop of `process_wide`: like `process_long` but yields
`row[:2] + [headers[index+2], cpi]`, with no country-code translation. -/
def processWideCells (headers row : List String) :
    Nat → List String → Emitted
  | _, [] => ⟨[], false⟩
  | idx, cpi :: rest =>
    if cpi = "" then processWideCells headers row (idx + 1) rest
    else
      match headers.get? (idx + 2) with
      | none => ⟨[], true⟩
      | some year =>
        let tail := processWideCells headers row (idx + 1) rest
        ⟨(row.take 2 ++ [year, cpi]) :: tail.items, tail.err⟩

/-- The outer loop of `process_wide`. -/
def processWideRows (headers : List String) : List (List String) → Emitted
  | [] => ⟨[], false⟩
  | row :: rest =>
    let r := processWideCells headers row 0 (row.drop 2)
    if r.err then r
    else
      let t := processWideRows headers rest
      ⟨r.items ++ t.items, t.err⟩

/-- `process_wide(headers, rows)`: yields the hardcoded header
`["Country Name", "Country Code", "Year", "CPI"]` first, then one
4-column row per non-empty CPI cell. -/
def process_wide (headers : List String) (rows : List (List String)) : Emitted :=
  let t := processWideRows headers rows
  ⟨["Country Name", "Country Code", "Year", "CPI"] :: t.items, t.err⟩

/-- The output destination of `write_csv`: `sys.stdout` when no filename is
given, else the file opened (created/truncated) at the given path. -/
inductive Dest
  | stdout
  | file (name : String)
deriving Repr, DecidableEq

/-- Observable outcome of a `write_csv` call: which destination was used,
which rows `csvwriter.writerows` serialized to it (in order), whether
`output.close()` ran, and whether the call raised. -/
structure WriteResult where
  dest : Dest
  written : List (List String)
  closed : Bool
  raised : Bool
deriving Repr, DecidableEq

/-- `write_csv(rows, filename)`: `output = sys.stdout if filename is None else
open(filename, 'w')`, then `csvwriter.writerows(rows)`, then
`output.close()`.  There is no `try/finally` and no `with` block: when pulling
the next row raises, the exception propagates out of `writerows` and
`output.close()` is never executed, so `closed` is true only on the normal
path.  `writerows` delivers every row produced before the exception. -/
def write_csv (rows : Emitted) (filename : Option String) : WriteResult :=
  let dest := match filename with
    | none => Dest.stdout
    | some f => Dest.file f
  { dest := dest
    written := rows.items
    closed := !rows.err
    raised := rows.err }

/-- csv.writer default (excel) dialect: a field is quoted iff it contains the
delimiter, the quote character, or a line-terminator character. -/
def needsQuote (s : String) : Bool :=
  s.data.any (fun c => c = ',' || c = '"' || c = '\r' || c = '\n')

/-- Double every quote character in a field (excel dialect doublequoting). -/
def escapeQuotes (s : String) : String :=
  String.join (s.data.map (fun c => if c = '"' then "\"\"" else c.toString))

/-- Serialize one field under the default csv dialect (QUOTE_MINIMAL). -/
def csvField (s : String) : String :=
  if needsQuote s then "\"" ++ escapeQuotes s ++ "\"" else s

/-- Serialize one row: comma-joined fields plus the CRLF line terminator. -/
def csvLine (row : List String) : String :=
  String.intercalate "," (row.map csvField) ++ "\r\n"

/-- The bytes `csvwriter.writerows` produces for a list of rows. -/
def csvString (rows : List (List String)) : String :=
  String.join (rows.map csvLine)

/-- The bytes the pipeline writes for a given table, header and row list:
`process_long` composed with CSV serialization. -/
def pipelineOutput (table : CodeTable) (headers : List String)
    (rows : List (List String)) : String :=
  csvString (process_long table headers rows).items

/-- `args.filename + "/cpi-long.csv"` in `__main__`: string concatenation on
the option value; when `-o` was not given the default is `None` and the `+`
raises `TypeError` (modelled as `Except.error`). -/
def mainOutputFilename (filenameArg : Option String) : Except String String :=
  match filenameArg with
  | none => Except.error "TypeError"
  | some f => Except.ok (f ++ "/cpi-long.csv")

/-- The `__main__` tail: build the output path from the `--output` value,
then `write_csv(process_long(headers, rows), filename=path)`.  The path is
computed before `write_csv` is entered (Python evaluates call arguments
first), so a `TypeError` from `None + "/cpi-long.csv"` prevents any write. -/
def mainRun (table : CodeTable) (filenameArg : Option String)
    (headers : List String) (rows : List (List String)) :
    Except String WriteResult :=
  match mainOutputFilename filenameArg with
  | Except.error e => Except.error e
  | Except.ok fn =>
      Except.ok (write_csv (process_long table headers rows) (some fn))

/-- Spec-side description of the long-narrow rows produced from one input row
(§4.2 algorithm): enumerate the indicator cells (index 2 onward), keep the
non-empty ones, and for each build `[code2, year-at-same-column, value]`. -/
def longRowSpec (table : CodeTable) (headers row : List String) :
    List (List String) :=
  ((row.drop 2).enum.filter (fun p => p.2 ≠ "")).map
    (fun p => [countryCode2 table (row.getD 1 ""), headers.getD (p.1 + 2) "", p.2])

/-- Spec-side description of the long-wide rows produced from one input row:
name and 3-letter code passed through, year at the same column, value. -/
def wideRowSpec (headers row : List String) : List (List String) :=
  ((row.drop 2).enum.filter (fun p => p.2 ≠ "")).map
    (fun p => row.take 2 ++ [headers.getD (p.1 + 2) "", p.2])

/-- Number of non-empty indicator cells (column index 2 onward) across all
input rows. -/
def countNonEmptyCells (rows : List (List String)) : Nat :=
  (rows.map (fun row => ((row.drop 2).filter (fun c => c ≠ "")).length)).sum

lemma get?_eq_some_getD {l : List String} {n : Nat} (hn : n < l.length) :
    l.get? n = some (l.getD n "") := by
  rw [List.get?_eq_getElem?, List.getElem?_eq_getElem hn, List.getD_eq_getElem l "" hn]

lemma processLongCells_eq (table : CodeTable) (h row : List String)
    (cells : List String) : ∀ idx : Nat,
    (∀ i, i < cells.length → idx + 2 + i < h.length) →
    processLongCells table h row idx cells =
      ⟨((cells.enumFrom idx).filter (fun p => p.2 ≠ "")).map
         (fun p => [countryCode2 table (row.getD 1 ""), h.getD (p.1 + 2) "", p.2]),
       false⟩ := by
  induction cells with
  | nil => intro idx _; rfl
  | cons cpi rest ih =>
    intro idx halign
    have hrest : ∀ i, i < rest.length → (idx + 1) + 2 + i < h.length := by
      intro i hi
      have := halign (i + 1) (by simpa using Nat.succ_lt_succ hi)
      omega
    by_cases hc : cpi = ""
    · subst hc
      simp only [processLongCells, if_pos rfl, ih (idx + 1) hrest,
        List.enumFrom_cons]
      simp
    · have hlt : idx + 2 < h.length := by
        have := halign 0 (by simp)
        omega
      simp only [processLongCells, if_neg hc, get?_eq_some_getD hlt,
        ih (idx + 1) hrest, List.enumFrom_cons]
      simp [hc]

lemma processLongRows_eq (table : CodeTable) (h : List String)
    (rows : List (List String))
    (halign : ∀ row ∈ rows, row.length ≤ h.length) :
    processLongRows table h rows = ⟨rows.flatMap (longRowSpec table h), false⟩ := by
  induction rows with
  | nil => rfl
  | cons row rest ih =>
    have hrow : ∀ i, i < (row.drop 2).length → 0 + 2 + i < h.length := by
      intro i hi
      have h1 : row.length ≤ h.length := halign row (by simp)
      have h2 : (row.drop 2).length = row.length - 2 := by simp
      omega
    have hcells := processLongCells_eq table h row (row.drop 2) 0 hrow
    have hrest := ih (fun r hr => halign r (by simp [hr]))
    simp only [processLongRows, hcells, hrest]
    simp [longRowSpec, List.enum_eq_enumFrom]

lemma mem_processLongCells {table : CodeTable} {h row r : List String}
    {cells : List String} : ∀ {idx : Nat},
    r ∈ (processLongCells table h row idx cells).items →
    ∃ i cpi year, cells.get? i = some cpi ∧ cpi ≠ "" ∧
      h.get? (idx + i + 2) = some year ∧
      r = [countryCode2 table (row.getD 1 ""), year, cpi] := by
  induction cells with
  | nil => intro idx hr; simp [processLongCells] at hr
  | cons cpi0 rest ih =>
    intro idx hr
    by_cases hc : cpi0 = ""
    · rw [processLongCells, if_pos hc] at hr
      obtain ⟨i, cpi, year, h1, h2, h3, h4⟩ := ih hr
      refine ⟨i + 1, cpi, year, by simpa using h1, h2, ?_, h4⟩
      have he : idx + (i + 1) + 2 = idx + 1 + i + 2 := by omega
      rw [he]
      exact h3
    · rw [processLongCells, if_neg hc] at hr
      cases hg : h.get? (idx + 2) with
      | none => rw [hg] at hr; simp at hr
      | some year0 =>
        rw [hg] at hr
        simp only [List.mem_cons] at hr
        rcases hr with hr | hr
        · exact ⟨0, cpi0, year0, rfl, hc, hg, hr⟩
        · obtain ⟨i, cpi, year, h1, h2, h3, h4⟩ := ih hr
          refine ⟨i + 1, cpi, year, by simpa using h1, h2, ?_, h4⟩
          have he : idx + (i + 1) + 2 = idx + 1 + i + 2 := by omega
          rw [he]
          exact h3

lemma mem_processLongRows {table : CodeTable} {h r : List String} :
    ∀ {rows : List (List String)},
    r ∈ (processLongRows table h rows).items →
    ∃ row ∈ rows, r ∈ (processLongCells table h row 0 (row.drop 2)).items := by
  intro rows
  induction rows with
  | nil => intro hr; simp [processLongRows] at hr
  | cons row rest ih =>
    intro hr
    simp only [processLongRows] at hr
    by_cases he : (processLongCells table h row 0 (row.drop 2)).err = true
    · rw [if_pos he] at hr
      exact ⟨row, by simp, hr⟩
    · rw [if_neg he] at hr
      rcases List.mem_append.mp hr with h1 | h2
      · exact ⟨row, by simp, h1⟩
      · obtain ⟨row0, hm, hr0⟩ := ih h2
        exact ⟨row0, by simp [hm], hr0⟩

lemma processLongCells_err_table (table table2 : CodeTable)
    (h row : List String) (cells : List String) : ∀ idx : Nat,
    (processLongCells table h row idx cells).err
      = (processLongCells table2 h row idx cells).err := by
  induction cells with
  | nil => intro idx; rfl
  | cons cpi0 rest ih =>
    intro idx
    by_cases hc : cpi0 = ""
    · rw [processLongCells, processLongCells, if_pos hc, if_pos hc]
      exact ih (idx + 1)
    · rw [processLongCells, processLongCells, if_neg hc, if_neg hc]
      cases hg : h.get? (idx + 2) with
      | none => rfl
      | some year => simpa using ih (idx + 1)

lemma processLongRows_err_table (table table2 : CodeTable) (h : List String) :
    ∀ rows : List (List String),
    (processLongRows table h rows).err
      = (processLongRows table2 h rows).err := by
  intro rows
  induction rows with
  | nil => rfl
  | cons row rest ih =>
    have hcell := processLongCells_err_table table table2 h row (row.drop 2) 0
    simp only [processLongRows]
    by_cases he : (processLongCells table h row 0 (row.drop 2)).err = true
    · rw [if_pos he, if_pos (hcell ▸ he)]
      exact he.trans (hcell ▸ he).symm
    · rw [if_neg he, if_neg (fun hx => he (hcell ▸ hx))]
      simpa using ih

lemma processLongCells_err_of_bad {table : CodeTable} {h row : List String}
    {cells : List String} : ∀ {idx : Nat},
    (∃ i cpi, cells.get? i = some cpi ∧ cpi ≠ "" ∧ h.length ≤ idx + i + 2) →
    (processLongCells table h row idx cells).err = true := by
  induction cells with
  | nil =>
    intro idx hbad
    obtain ⟨i, cpi, h1, _, _⟩ := hbad
    simp at h1
  | cons cpi0 rest ih =>
    intro idx hbad
    obtain ⟨i, cpi, h1, h2, h3⟩ := hbad
    by_cases hc : cpi0 = ""
    · rw [processLongCells, if_pos hc]
      cases i with
      | zero =>
        exfalso
        apply h2
        simp only [List.get?_cons_zero, Option.some.injEq] at h1
        rw [← h1, hc]
      | succ j =>
        exact ih ⟨j, cpi, by simpa using h1, h2, by omega⟩
    · rw [processLongCells, if_neg hc]
      cases hg : h.get? (idx + 2) with
      | none => rfl
      | some year =>
        have hlt : idx + 2 < h.length := by
          by_contra hle
          rw [List.get?_eq_getElem?, List.getElem?_eq_none (by omega)] at hg
          exact Option.noConfusion hg
        cases i with
        | zero => omega
        | succ j =>
          simpa using ih ⟨j, cpi, by simpa using h1, h2, by omega⟩

lemma processLongRows_err_of_bad {table : CodeTable} {h : List String} :
    ∀ {rows : List (List String)},
    (∃ row ∈ rows, ∃ i cpi, (row.drop 2).get? i = some cpi ∧ cpi ≠ "" ∧
        h.length ≤ i + 2) →
    (processLongRows table h rows).err = true := by
  intro rows
  induction rows with
  | nil => intro hbad; simp at hbad
  | cons row rest ih =>
    intro hbad
    obtain ⟨row0, hm, i, cpi, h1, h2, h3⟩ := hbad
    simp only [processLongRows]
    rcases List.mem_cons.mp hm with rfl | hm2
    · have hcell : (processLongCells table h row0 0 (row0.drop 2)).err = true :=
        processLongCells_err_of_bad ⟨i, cpi, h1, h2, by omega⟩
      rw [if_pos hcell]
      exact hcell
    · by_cases he : (processLongCells table h row 0 (row.drop 2)).err = true
      · rw [if_pos he]
        exact he
      · rw [if_neg he]
        simpa using ih ⟨row0, hm2, i, cpi, h1, h2, h3⟩

lemma enumFrom_filter_ne_length (l : List String) : ∀ n : Nat,
    ((l.enumFrom n).filter (fun p => p.2 ≠ "")).length
      = (l.filter (fun c => c ≠ "")).length := by
  induction l with
  | nil => intro n; rfl
  | cons a l ih =>
    intro n
    have ih2 := ih (n + 1)
    by_cases hc : a = ""
    · simpa [List.enumFrom_cons, List.filter_cons, hc] using ih2
    · simpa [List.enumFrom_cons, List.filter_cons, hc] using ih2

lemma processWideCells_eq (h row : List String) (cells : List String) :
    ∀ idx : Nat,
    (∀ i, i < cells.length → idx + 2 + i < h.length) →
    processWideCells h row idx cells =
      ⟨((cells.enumFrom idx).filter (fun p => p.2 ≠ "")).map
         (fun p => row.take 2 ++ [h.getD (p.1 + 2) "", p.2]),
       false⟩ := by
  induction cells with
  | nil => intro idx _; rfl
  | cons cpi rest ih =>
    intro idx halign
    have hrest : ∀ i, i < rest.length → (idx + 1) + 2 + i < h.length := by
      intro i hi
      have := halign (i + 1) (by simpa using Nat.succ_lt_succ hi)
      omega
    by_cases hc : cpi = ""
    · subst hc
      simp only [processWideCells, if_pos rfl, ih (idx + 1) hrest,
        List.enumFrom_cons]
      simp
    · have hlt : idx + 2 < h.length := by
        have := halign 0 (by simp)
        omega
      simp only [processWideCells, if_neg hc, get?_eq_some_getD hlt,
        ih (idx + 1) hrest, List.enumFrom_cons]
      simp [hc]

lemma processWideRows_eq (h : List String) (rows : List (List String))
    (halign : ∀ row ∈ rows, row.length ≤ h.length) :
    processWideRows h rows = ⟨rows.flatMap (wideRowSpec h), false⟩ := by
  induction rows with
  | nil => rfl
  | cons row rest ih =>
    have hrow : ∀ i, i < (row.drop 2).length → 0 + 2 + i < h.length := by
      intro i hi
      have h1 : row.length ≤ h.length := halign row (by simp)
      have h2 : (row.drop 2).length = row.length - 2 := by simp
      omega
    have hcells := processWideCells_eq h row (row.drop 2) 0 hrow
    have hrest := ih (fun r hr => halign r (by simp [hr]))
    simp only [processWideRows, hcells, hrest]
    simp [wideRowSpec, List.enum_eq_enumFrom]

lemma longRowSpec_length (table : CodeTable) (h row : List String) :
    (longRowSpec table h row).length
      = ((row.drop 2).filter (fun c => c ≠ "")).length := by
  simp only [longRowSpec, List.length_map]
  rw [List.enum_eq_enumFrom]
  exact enumFrom_filter_ne_length (row.drop 2) 0

/-- **C1** (amended: assuming the §3 alignment invariant, every data row no
longer than the header).  `process_long` emits the fixed header
`["iso2c", "year", "cpi"]` exactly once as the first item, followed by one
data row per non-empty indicator cell — in input row order and, within a row,
in column order (the `flatMap` of the per-row spec) — so the number of data
rows equals the count of non-empty cells across all input rows. -/
theorem process_long_header_and_count (table : CodeTable) (h : List String)
    (rows : List (List String))
    (halign : ∀ row ∈ rows, row.length ≤ h.length) :
    process_long table h rows =
      ⟨["iso2c", "year", "cpi"] :: rows.flatMap (longRowSpec table h), false⟩ ∧
    (process_long table h rows).items.length = 1 + countNonEmptyCells rows := by
  have hrows := processLongRows_eq table h rows halign
  constructor
  · simp [process_long, hrows]
  · simp only [process_long, hrows, List.length_cons, List.length_flatMap]
    have hmap : (rows.map (List.length ∘ longRowSpec table h))
        = rows.map fun row => ((row.drop 2).filter (fun c => c ≠ "")).length :=
      List.map_congr_left (fun row _ => longRowSpec_length table h row)
    rw [hmap, countNonEmptyCells]
    omega

/-- Witness for C1 at the spec scenario: header `["Country","Code","2000","2001"]`
and single row `["Iceland","ISL","","2.5"]`. -/
theorem process_long_header_and_count_witness :
    process_long [("ISL", "IS")] ["Country", "Code", "2000", "2001"]
        [["Iceland", "ISL", "", "2.5"]] =
      ⟨["iso2c", "year", "cpi"] ::
        [["Iceland", "ISL", "", "2.5"]].flatMap
          (longRowSpec [("ISL", "IS")] ["Country", "Code", "2000", "2001"]),
       false⟩ ∧
    (process_long [("ISL", "IS")] ["Country", "Code", "2000", "2001"]
        [["Iceland", "ISL", "", "2.5"]]).items.length
      = 1 + countNonEmptyCells [["Iceland", "ISL", "", "2.5"]] :=
  process_long_header_and_count [("ISL", "IS")]
    ["Country", "Code", "2000", "2001"] [["Iceland", "ISL", "", "2.5"]]
    (by decide)

/-- **C1** counterexample: with header `["Country","Code"]` and row
`["X","ABC","1.0"]` (one non-empty indicator cell, but no matching header
column) the run aborts with the uncaught `IndexError`; only the header item is
emitted, so the data-row count (0) differs from the non-empty-cell count (1),
refuting the claim universally quantified over all inputs. -/
theorem process_long_count_cex :
    ¬ ((process_long [] ["Country", "Code"] [["X", "ABC", "1.0"]]).items.length
        = 1 + countNonEmptyCells [["X", "ABC", "1.0"]]) := by decide

/-- **C2**: every emitted long-narrow data row (everything after the header
item) comes from a non-empty cell at some local index `i` of some input row,
its year field is the header element at index `i + 2`, and its value field is
that cell's content.  This holds with no alignment assumption: a row is
emitted only when the header lookup succeeded. -/
theorem process_long_year_value (table : CodeTable) (h : List String)
    (rows : List (List String)) (r : List String)
    (hr : r ∈ (process_long table h rows).items.tail) :
    ∃ row ∈ rows, ∃ i cpi year,
      (row.drop 2).get? i = some cpi ∧ cpi ≠ "" ∧
      h.get? (i + 2) = some year ∧
      r = [countryCode2 table (row.getD 1 ""), year, cpi] := by
  have hr2 : r ∈ (processLongRows table h rows).items := by
    simpa [process_long] using hr
  obtain ⟨row, hm, hrc⟩ := mem_processLongRows hr2
  obtain ⟨i, cpi, year, h1, h2, h3, h4⟩ := mem_processLongCells hrc
  exact ⟨row, hm, i, cpi, year, h1, h2, by simpa using h3, h4⟩

/-- Witness for C2 at the spec scenario: the emitted row `["IS","2001","2.5"]`
indeed carries the header year `"2001"` and the cell value `"2.5"`. -/
theorem process_long_year_value_witness :
    ∃ row ∈ [["Iceland", "ISL", "", "2.5"]], ∃ i cpi year,
      (row.drop 2).get? i = some cpi ∧ cpi ≠ "" ∧
      (["Country", "Code", "2000", "2001"] : List String).get? (i + 2)
        = some year ∧
      (["IS", "2001", "2.5"] : List String)
        = [countryCode2 [("ISL", "IS")] (row.getD 1 ""), year, cpi] :=
  process_long_year_value [("ISL", "IS")] ["Country", "Code", "2000", "2001"]
    [["Iceland", "ISL", "", "2.5"]] ["IS", "2001", "2.5"] (by decide)

/-- **C3**: every emitted long-narrow data row carries as its first field the
2-letter code from the table lookup on the row's element at index 1 when the
lookup hits, and the sentinel `"XK"` when it misses; and the lookup never
aborts anything: whether the run errors is independent of the lookup table. -/
theorem process_long_sentinel (table table2 : CodeTable) (h : List String)
    (rows : List (List String)) (r : List String)
    (hr : r ∈ (process_long table h rows).items.tail) :
    (∃ row ∈ rows,
        r.head? = some (match lookupAlpha2 table (row.getD 1 "") with
          | some a2 => a2
          | none => "XK")) ∧
    (process_long table h rows).err = (process_long table2 h rows).err := by
  constructor
  · have hr2 : r ∈ (processLongRows table h rows).items := by
      simpa [process_long] using hr
    obtain ⟨row, hm, hrc⟩ := mem_processLongRows hr2
    obtain ⟨i, cpi, year, _, _, _, h4⟩ := mem_processLongCells hrc
    refine ⟨row, hm, ?_⟩
    rw [h4]
    simp only [List.head?_cons, Option.some.injEq]
    rw [countryCode2]
    cases lookupAlpha2 table (row.getD 1 "") <;> rfl
  · simpa [process_long] using processLongRows_err_table table table2 h rows

/-- Witness for C3 at the spec scenario: `"XKX"` misses the table, the emitted
row `["XK","2000","1.1"]` carries the sentinel, and the run does not abort. -/
theorem process_long_sentinel_witness :
    (∃ row ∈ [["Kosovo", "XKX", "1.1"]],
        (["XK", "2000", "1.1"] : List String).head?
          = some (match lookupAlpha2 [("ISL", "IS")] (row.getD 1 "") with
              | some a2 => a2
              | none => "XK")) ∧
    (process_long [("ISL", "IS")] ["Country", "Code", "2000"]
        [["Kosovo", "XKX", "1.1"]]).err
      = (process_long [] ["Country", "Code", "2000"]
          [["Kosovo", "XKX", "1.1"]]).err :=
  process_long_sentinel [("ISL", "IS")] [] ["Country", "Code", "2000"]
    [["Kosovo", "XKX", "1.1"]] ["XK", "2000", "1.1"] (by decide)

/-- **C4** counterexample: `write_csv` has no `try/finally` and no `with`
block, so when serialization raises partway (here: the row generator ended
with the uncaught `IndexError`), `output.close()` is never executed — the
claim that the destination is closed on every exit path is false. -/
theorem write_csv_close_cex :
    (write_csv ⟨[["iso2c", "year", "cpi"]], true⟩
        (some "data/cpi-long.csv")).raised = true ∧
    (write_csv ⟨[["iso2c", "year", "cpi"]], true⟩
        (some "data/cpi-long.csv")).closed = false :=
  ⟨rfl, rfl⟩

/-- **C4** (amended): the destination is closed exactly on the normal exit
path — `output.close()` runs iff `csvwriter.writerows` completed without an
exception; when serialization fails partway the handle is not closed. -/
theorem write_csv_close (rows : Emitted) (f : Option String) :
    ((write_csv rows f).raised = false → (write_csv rows f).closed = true) ∧
    ((write_csv rows f).raised = true → (write_csv rows f).closed = false) := by
  refine ⟨fun hr => ?_, fun hr => ?_⟩ <;>
    simp only [write_csv] at hr ⊢ <;> simp [hr]

/-- Witness for C4 (amended) on a normal run: the handle is closed. -/
theorem write_csv_close_witness :
    (write_csv ⟨[["a"]], false⟩ (some "data/cpi-long.csv")).closed = true :=
  (write_csv_close ⟨[["a"]], false⟩ (some "data/cpi-long.csv")).1 rfl

/-- **C5**: with `filename = None` the writer sends exactly the received rows,
in order, to standard output (none lost or reordered, serialized bytes
included); with a filename it opens that file for writing instead. -/
theorem write_csv_stdout (rows : List (List String)) (f : String) :
    (write_csv ⟨rows, false⟩ none).dest = Dest.stdout ∧
    (write_csv ⟨rows, false⟩ none).written = rows ∧
    csvString (write_csv ⟨rows, false⟩ none).written = csvString rows ∧
    (write_csv ⟨rows, false⟩ (some f)).dest = Dest.file f :=
  ⟨rfl, rfl, rfl, rfl⟩

/-- **C6**: whenever some data row has a non-empty indicator cell at a column
position beyond the last header element, `process_long` ends in the fatal
out-of-range `IndexError` (the error flag is set); the mismatched cell is not
silently skipped and no validation masks the error. -/
theorem process_long_mismatch_fatal (table : CodeTable) (h : List String)
    (rows : List (List String))
    (hbad : ∃ row ∈ rows, ∃ i cpi, (row.drop 2).get? i = some cpi ∧
        cpi ≠ "" ∧ h.length ≤ i + 2) :
    (process_long table h rows).err = true := by
  simpa [process_long] using processLongRows_err_of_bad hbad

/-- Witness for C6: header `["Country","Code"]` with row `["X","ABC","1.0"]`
(cell `"1.0"` has no matching header column) makes the run fatal. -/
theorem process_long_mismatch_fatal_witness :
    (process_long [] ["Country", "Code"] [["X", "ABC", "1.0"]]).err = true :=
  process_long_mismatch_fatal [] ["Country", "Code"] [["X", "ABC", "1.0"]]
    ⟨["X", "ABC", "1.0"], by decide, 0, "1.0", by decide, by decide, by decide⟩

/-- **C7**: for every value `f` of the `--output` option, `__main__` writes
the long-narrow output to the literal concatenation `f ++ "/cpi-long.csv"`
(the option value is a directory-style prefix, not the output file name). -/
theorem main_output_path (table : CodeTable) (f : String) (h : List String)
    (rows : List (List String)) :
    ∃ res : WriteResult, mainRun table (some f) h rows = Except.ok res ∧
      res.dest = Dest.file (f ++ "/cpi-long.csv") ∧
      res.written = (process_long table h rows).items :=
  ⟨write_csv (process_long table h rows) (some (f ++ "/cpi-long.csv")),
    rfl, rfl, rfl⟩

/-- **C8**: the transform-and-serialize pipeline is a deterministic function
of the input table, header and rows alone — two runs on equal inputs with an
unchanged code-mapping table produce byte-identical serialized output.  The
embedding makes every dependency of the script's output an explicit argument
(there is no other state), so determinism is equality of the two results. -/
theorem pipeline_deterministic (table1 table2 : CodeTable)
    (h1 h2 : List String) (rows1 rows2 : List (List String))
    (ht : table1 = table2) (hh : h1 = h2) (hr : rows1 = rows2) :
    pipelineOutput table1 h1 rows1 = pipelineOutput table2 h2 rows2 := by
  rw [ht, hh, hr]

/-- Witness for C8 at a concrete input: two runs give the same bytes. -/
theorem pipeline_deterministic_witness :
    pipelineOutput [("ISL", "IS")] ["Country", "Code", "2001"]
        [["Iceland", "ISL", "2.5"]]
      = pipelineOutput [("ISL", "IS")] ["Country", "Code", "2001"]
        [["Iceland", "ISL", "2.5"]] :=
  pipeline_deterministic [("ISL", "IS")] [("ISL", "IS")]
    ["Country", "Code", "2001"] ["Country", "Code", "2001"]
    [["Iceland", "ISL", "2.5"]] [["Iceland", "ISL", "2.5"]] rfl rfl rfl

/-- **C9** (amended: assuming the §3 alignment invariant, every data row no
longer than the header).  `process_wide` emits the fixed header
`["Country Name", "Country Code", "Year", "CPI"]` first, then per non-empty
cell the row's first two fields passed through unchanged (`row[:2]`, no
country-code translation, hence no lookup and no lookup failure), the header
year at the matching column, and the cell value. -/
theorem process_wide_passthrough (h : List String)
    (rows : List (List String))
    (halign : ∀ row ∈ rows, row.length ≤ h.length) :
    process_wide h rows =
      ⟨["Country Name", "Country Code", "Year", "CPI"]
          :: rows.flatMap (wideRowSpec h), false⟩ := by
  have hrows := processWideRows_eq h rows halign
  simp [process_wide, hrows]

/-- Witness for C9 at the Iceland scenario. -/
theorem process_wide_passthrough_witness :
    process_wide ["Country", "Code", "2000", "2001"]
        [["Iceland", "ISL", "", "2.5"]] =
      ⟨["Country Name", "Country Code", "Year", "CPI"]
          :: [["Iceland", "ISL", "", "2.5"]].flatMap
            (wideRowSpec ["Country", "Code", "2000", "2001"]),
       false⟩ :=
  process_wide_passthrough ["Country", "Code", "2000", "2001"]
    [["Iceland", "ISL", "", "2.5"]] (by decide)

/-- **C9** counterexample: for header `["Country","Code"]` and row
`["X","ABC","1.0"]` the claim (quantified over every input) demands a header
item plus one 4-tuple for the non-empty cell `"1.0"`, i.e. two items; the code
instead hits the uncaught `IndexError` and emits the header only. -/
theorem process_wide_cex :
    ¬ ((process_wide ["Country", "Code"] [["X", "ABC", "1.0"]]).items.length
        = 2) := by decide

/-- **C10**: invoked without `--output` the filename defaults to `None`, so
`None + "/cpi-long.csv"` raises `TypeError` before `write_csv` is entered and
before any output row is written; and no CLI invocation can reach `write_csv`
with no destination, so the writer's standard-output path is unreachable from
`__main__`. -/
theorem main_no_output_flag (table : CodeTable) (h : List String)
    (rows : List (List String)) :
    mainRun table none h rows = Except.error "TypeError" ∧
    ∀ (fArg : Option String) (res : WriteResult),
      mainRun table fArg h rows = Except.ok res → res.dest ≠ Dest.stdout := by
  refine ⟨rfl, ?_⟩
  intro fArg res hres
  cases fArg with
  | none => simp [mainRun, mainOutputFilename] at hres
  | some f =>
    have hres2 : write_csv (process_long table h rows)
        (some (f ++ "/cpi-long.csv")) = res := by
      simpa [mainRun, mainOutputFilename] using hres
    rw [← hres2]
    simp [write_csv]

/-- Witness for C10: a concrete successful CLI run writes to a file, never to
standard output. -/
theorem main_no_output_flag_witness :
    (write_csv (process_long [] ["Country"] [])
        (some "data/cpi-long.csv")).dest ≠ Dest.stdout :=
  (main_no_output_flag [] ["Country"] []).2 (some "data")
    (write_csv (process_long [] ["Country"] []) (some "data/cpi-long.csv")) rfl

end CPI
